import Mathlib

/-!
Verification of the go-redis repository: a shallow embedding in Lean 4 of

* the RESP parser of src/internal/redis/rdb.go (Parse, parseSimpleString,
  parseError, parseInteger, parseBulkString, parseArray, readRESPLine),
* the expiring key-value store of src/internal/redis/rdb.go (Set, Get,
  with the cache map and the reader/writer lock),
* the command dispatcher of src/cmd/server/main.go (handleRESP,
  handleSetCommand, handleGetCommand, handleEchoCommand,
  handleConfigCommand, handleConnection and the write helpers),

followed by theorems settling the specification claims.  Byte streams are
modelled as List Char (one Char per byte), machine integers as Int with the
explicit int64 range bounds where Go checks them, the Go map as an
association list, and fallible code by Except / Option.  Go runtime panics
are modelled by a distinguished error outcome.
-/

namespace Redis

/-! ## Decimal digits and strconv.ParseInt

Go's strconv.ParseInt(s, 10, 64) (and strconv.Atoi, which on a 64-bit
platform is ParseInt(s, 10, 0) with identical range): an optional single
sign, then one or more ASCII digits, rejecting everything else, and
rejecting values outside the signed 64-bit range. -/

def isDigitChar (c : Char) : Bool := decide ('0' ≤ c) && decide (c ≤ '9')

def digitVal (c : Char) : Nat := c.toNat - 48

def digitChar (n : Nat) : Char := Char.ofNat (48 + n)

/-- The digit-accumulating loop of Go's ParseInt: left to right,
acc = acc * 10 + digit, failing on a non-digit byte. -/
def parseDigitsAcc (acc : Nat) : List Char → Option Nat
  | [] => some acc
  | c :: cs => if isDigitChar c then parseDigitsAcc (acc * 10 + digitVal c) cs else none

/-- At least one digit is required (ParseInt rejects an empty digit run). -/
def parseDigits : List Char → Option Nat
  | [] => none
  | c :: cs => parseDigitsAcc 0 (c :: cs)

/-- Little-endian digit characters of n, with fuel for structural
termination (fuel ≥ n suffices). -/
def natToDigitsRev : Nat → Nat → List Char
  | 0, _ => []
  | _ + 1, 0 => []
  | fuel + 1, n + 1 => digitChar ((n + 1) % 10) :: natToDigitsRev fuel ((n + 1) / 10)

/-- Canonical base-10 rendering of a natural number, as produced by
Go's fmt %d verb for non-negative values. -/
def natToDigits (n : Nat) : List Char :=
  if n = 0 then ['0'] else (natToDigitsRev n n).reverse

/-- Canonical base-10 rendering of an Int (leading '-' when negative). -/
def intToDigits (n : Int) : List Char :=
  if n < 0 then '-' :: natToDigits n.natAbs else natToDigits n.toNat

def maxInt64 : Nat := 2 ^ 63 - 1

/-- Model of strconv.ParseInt(s, 10, 64): optional sign, mandatory digit
run, signed 64-bit range check (out of range is an error and the parser
treats any error as failure). -/
def goParseInt (l : List Char) : Option Int :=
  match l with
  | [] => none
  | c :: r =>
    if c = '+' then
      (parseDigits r).bind fun m => if m ≤ maxInt64 then some (m : Int) else none
    else if c = '-' then
      (parseDigits r).bind fun m => if m ≤ 2 ^ 63 then some (-(m : Int)) else none
    else
      (parseDigits (c :: r)).bind fun m => if m ≤ maxInt64 then some (m : Int) else none

/-! ### Lemmas: decimal rendering is parsed back to the same number -/

theorem parseDigitsAcc_append (l₁ l₂ : List Char) (acc : Nat) :
    parseDigitsAcc acc (l₁ ++ l₂)
      = (parseDigitsAcc acc l₁).bind fun a => parseDigitsAcc a l₂ := by
  induction l₁ generalizing acc with
  | nil => simp [parseDigitsAcc]
  | cons c cs ih =>
    by_cases h : isDigitChar c = true
    · simp [parseDigitsAcc, h, ih]
    · simp [parseDigitsAcc, h]

/-- Numeric value of a little-endian digit character list. -/
def valRev : List Char → Nat
  | [] => 0
  | c :: cs => digitVal c + 10 * valRev cs

theorem digitChar_spec (d : Nat) (hd : d < 10) :
    isDigitChar (digitChar d) = true ∧ digitVal (digitChar d) = d := by
  interval_cases d <;> exact ⟨by decide, by decide⟩

theorem natToDigitsRev_spec (fuel n : Nat) (h : n ≤ fuel) :
    (natToDigitsRev fuel n).all isDigitChar = true ∧
      valRev (natToDigitsRev fuel n) = n := by
  induction fuel generalizing n with
  | zero =>
    have : n = 0 := Nat.le_zero.mp h
    subst this
    exact ⟨rfl, rfl⟩
  | succ f ih =>
    match n with
    | 0 => exact ⟨rfl, rfl⟩
    | m + 1 =>
      have hd := digitChar_spec ((m + 1) % 10) (Nat.mod_lt _ (by omega))
      have hrec : (m + 1) / 10 ≤ f := by
        have := Nat.div_lt_self (Nat.succ_pos m) (by omega : 1 < 10)
        omega
      have ihr := ih ((m + 1) / 10) hrec
      refine ⟨?_, ?_⟩
      · simp [natToDigitsRev, List.all_cons, hd.1, ihr.1]
      · simp only [natToDigitsRev, valRev, hd.2, ihr.2]
        omega

theorem parseDigitsAcc_reverse (r : List Char) (acc : Nat)
    (h : r.all isDigitChar = true) :
    parseDigitsAcc acc r.reverse = some (acc * 10 ^ r.length + valRev r) := by
  induction r generalizing acc with
  | nil => simp [parseDigitsAcc, valRev]
  | cons c cs ih =>
    simp only [List.all_cons, Bool.and_eq_true] at h
    simp only [List.reverse_cons]
    rw [parseDigitsAcc_append, ih acc h.2]
    simp [parseDigitsAcc, h.1, valRev]
    ring

theorem natToDigits_all (n : Nat) : (natToDigits n).all isDigitChar = true := by
  by_cases h : n = 0
  · subst h; decide
  · have := natToDigitsRev_spec n n le_rfl
    simp [natToDigits, h, List.all_reverse, this.1]

theorem natToDigits_ne_nil (n : Nat) : natToDigits n ≠ [] := by
  by_cases h : n = 0
  · subst h; decide
  · match hn : n with
    | 0 => exact absurd rfl h
    | m + 1 =>
      simp [natToDigits, natToDigitsRev]

theorem parseDigits_natToDigits (n : Nat) : parseDigits (natToDigits n) = some n := by
  by_cases h : n = 0
  · subst h; decide
  · have hspec := natToDigitsRev_spec n n le_rfl
    have heq : natToDigits n = (natToDigitsRev n n).reverse := by simp [natToDigits, h]
    have hacc := parseDigitsAcc_reverse (natToDigitsRev n n) 0 hspec.1
    rw [hspec.2] at hacc
    simp only [Nat.zero_mul, Nat.zero_add] at hacc
    have hne : (natToDigitsRev n n).reverse ≠ [] := by
      rw [← heq]; exact natToDigits_ne_nil n
    obtain ⟨c, cs, hcons⟩ := List.exists_cons_of_ne_nil hne
    rw [heq, hcons]
    rw [hcons] at hacc
    simpa [parseDigits] using hacc

theorem digit_head_not_sign {c : Char} (h : isDigitChar c = true) :
    ¬c = '+' ∧ ¬c = '-' := by
  constructor <;> (intro heq; subst heq; exact absurd h (by decide))

theorem goParseInt_natToDigits (n : Nat) (h : n ≤ maxInt64) :
    goParseInt (natToDigits n) = some (n : Int) := by
  obtain ⟨c, cs, hcons⟩ := List.exists_cons_of_ne_nil (natToDigits_ne_nil n)
  have hall := natToDigits_all n
  rw [hcons] at hall
  simp only [List.all_cons, Bool.and_eq_true] at hall
  have hsign := digit_head_not_sign hall.1
  have hp := parseDigits_natToDigits n
  rw [hcons] at hp
  rw [hcons]
  simp [goParseInt, hsign.1, hsign.2, hp, h]

theorem goParseInt_intToDigits (n : Int)
    (hlo : -(2 ^ 63 : Int) ≤ n) (hhi : n ≤ (maxInt64 : Int)) :
    goParseInt (intToDigits n) = some n := by
  by_cases hneg : n < 0
  · have hm : (maxInt64 : Int) = 2 ^ 63 - 1 := by norm_num [maxInt64]
    have hle : n.natAbs ≤ 2 ^ 63 := by omega
    have hp := parseDigits_natToDigits n.natAbs
    have hval : (-(n.natAbs : Int)) = n := by omega
    simp [intToDigits, if_pos hneg, goParseInt, hp, hle, hval]
    refine ⟨by omega, ?_⟩
    rw [Int.abs_eq_natAbs]
    omega
  · have hnn : 0 ≤ n := le_of_not_lt hneg
    have htn : (n.toNat : Int) = n := Int.toNat_of_nonneg hnn
    have hle : n.toNat ≤ maxInt64 := by
      have : (n.toNat : Int) ≤ (maxInt64 : Int) := by rw [htn]; exact hhi
      exact_mod_cast this
    have := goParseInt_natToDigits n.toNat hle
    rw [htn] at this
    simpa [intToDigits, not_lt.mpr hnn] using this

theorem isDigitChar_ne_nl {c : Char} (h : isDigitChar c = true) : ¬c = '\n' := by
  intro heq; subst heq; exact absurd h (by decide)

theorem natToDigits_no_nl (n : Nat) : '\n' ∉ natToDigits n := by
  intro hmem
  have hall := natToDigits_all n
  have := List.all_eq_true.mp hall '\n' hmem
  exact absurd this (by decide)

theorem intToDigits_no_nl (n : Int) : '\n' ∉ intToDigits n := by
  by_cases hneg : n < 0
  · simp only [intToDigits, if_pos hneg]
    intro hmem
    rcases List.mem_cons.mp hmem with h | h
    · exact absurd h (by decide)
    · exact natToDigits_no_nl _ h
  · simp only [intToDigits, if_neg hneg]
    exact natToDigits_no_nl _

/-! ## RESP values

The Go parser's value domain (rdb.go, package redis).  The Go code uses a
dynamic union (RESPType = any) over RESPSimpleString, RESPError,
RESPInteger, RESPBulkString and RESPArray; here it is a closed sum.  Two
facts of the Go representation are kept faithfully:

* parseBulkString returns the plain string RESPBulkString("") for the -1
  null sentinel, so a decoded null bulk string is the SAME Go value as a
  decoded empty bulk string — there is no separate null constructor for
  bulk strings because the parser can never produce one;
* parseArray returns the nil slice for a -1 count, which Go CAN
  distinguish from the empty non-nil slice, so nilArr is a separate
  constructor from arr []. -/

inductive RESPValue where
  | simple (s : List Char)
  | err (s : List Char)
  | int (n : Int)
  | bulk (s : List Char)
  | arr (xs : List RESPValue)
  | nilArr

/-! ## The parser (rdb.go lines 254-360)

The byte stream is a List Char; the stream ending is the list ending,
modelling the peer closing the connection after those bytes. -/

/-- Errors a Parse call can produce.  Mapping to the Go code:
eof is io.EOF (what bufio.Reader.ReadString and io.ReadFull return when
zero bytes were read before the stream closed); unexpectedEof is
io.ErrUnexpectedEOF (io.ReadFull after a partial read); malformedLine is
the errors.New("malformed line (missing \x5cr\x5cn)") of readRESPLine;
invalidInt is a strconv parse failure; unknownType c is the
fmt.Errorf("unknown RESP type: %c") of Parse; panicked marks inputs on
which the Go code does not return at all but panics in the runtime
(make or slice with a negative length); outOfFuel is a modelling artifact
of the termination fuel, never reached when fuel exceeds the recursion
depth. -/
inductive ParseErr where
  | eof
  | unexpectedEof
  | malformedLine
  | invalidInt
  | unknownType (c : Char)
  | panicked
  | outOfFuel
deriving DecidableEq, Repr

/-- Splits the stream at the first '\n', inclusive, like
bufio.Reader.ReadString('\n'); none when the stream ends first. -/
def splitAtNL : List Char → Option (List Char × List Char)
  | [] => none
  | c :: cs =>
    if c = '\n' then some ([c], cs)
    else
      match splitAtNL cs with
      | none => none
      | some (l, r) => some (c :: l, r)

/-- Last two characters checked and removed when they are CR LF. -/
def stripCRLF (l : List Char) : Option (List Char) :=
  match l.reverse with
  | '\n' :: '\r' :: restRev => some restRev.reverse
  | _ => none

/-- readRESPLine (rdb.go 351-360): ReadString('\n'), error verbatim when
the delimiter is never found (Go discards the partial data and returns
io.EOF), then the line must end in CR LF, which is stripped. -/
def readRESPLine (s : List Char) : Except ParseErr (List Char × List Char) :=
  match splitAtNL s with
  | none => .error .eof
  | some (line, rest) =>
    match stripCRLF line with
    | none => .error .malformedLine
    | some l => .ok (l, rest)

mutual

/-- Parse (rdb.go 254-274) with its helpers inlined at the prefix
dispatch: parseSimpleString, parseError, parseInteger (276-302),
parseBulkString (304-324), parseArray (326-349).  The Nat fuel only
bounds the recursion depth for termination; every recursive call
decreases it by one. -/
def parseF : Nat → List Char → Except ParseErr (RESPValue × List Char)
  | 0, _ => .error .outOfFuel
  | _ + 1, [] => .error .eof
  | fuel + 1, c :: s =>
    if c = '+' then
      match readRESPLine s with
      | .error e => .error e
      | .ok (l, r) => .ok (.simple l, r)
    else if c = '-' then
      match readRESPLine s with
      | .error e => .error e
      | .ok (l, r) => .ok (.err l, r)
    else if c = ':' then
      match readRESPLine s with
      | .error e => .error e
      | .ok (l, r) =>
        match goParseInt l with
        | none => .error .invalidInt
        | some v => .ok (.int v, r)
    else if c = '$' then
      match readRESPLine s with
      | .error e => .error e
      | .ok (l, r) =>
        match goParseInt l with
        | none => .error .invalidInt
        | some n =>
          if n = -1 then .ok (.bulk [], r)
          else if n < -1 then .error .panicked
          else
            if n.toNat + 2 ≤ r.length then
              .ok (.bulk (r.take n.toNat), r.drop (n.toNat + 2))
            else if r.length = 0 then .error .eof
            else .error .unexpectedEof
    else if c = '*' then
      match readRESPLine s with
      | .error e => .error e
      | .ok (l, r) =>
        match goParseInt l with
        | none => .error .invalidInt
        | some n =>
          if n = -1 then .ok (.nilArr, r)
          else if n < -1 then .error .panicked
          else
            match parseElemsF fuel n.toNat r with
            | .error e => .error e
            | .ok (xs, r2) => .ok (.arr xs, r2)
    else .error (.unknownType c)

/-- The element loop of parseArray: count recursive Parse calls in order,
propagating the first failure. -/
def parseElemsF : Nat → Nat → List Char → Except ParseErr (List RESPValue × List Char)
  | 0, _, _ => .error .outOfFuel
  | _ + 1, 0, s => .ok ([], s)
  | fuel + 1, count + 1, s =>
    match parseF fuel s with
    | .error e => .error e
    | .ok (v, r) =>
      match parseElemsF fuel count r with
      | .error e => .error e
      | .ok (vs, r2) => .ok (v :: vs, r2)

end

/-- Parse on a finite stream, with fuel ample for that stream (every
nesting level of a frame occupies at least one byte, so length + 1 bounds
the recursion depth). -/
def parseTop (s : List Char) : Except ParseErr (RESPValue × List Char) :=
  parseF (s.length + 1) s

/-! ## Encoding

writeRESPSimpleString and writeRESPBulkString are the write helpers of
src/cmd/server/main.go (lines 293-305).  The command set never writes
integer, error-value or array replies, so src/ has no encoders for those
variants; they are modelled from the spec. -/

def crlf : List Char := ['\r', '\n']

/-- writeRESPSimpleString (main.go 293-298): fmt.Fprintf "+%s\r\n". -/
def encodeSimple (s : List Char) : List Char := '+' :: (s ++ crlf)

/-- Modelled from the spec: Encode of an Error value, Error(s) → -s\r\n
(spec 4.1).  Missing from src/: writeRESPError formats a Go error value as
"-ERR %s\r\n"; no helper encodes an Error protocol value verbatim. -/
def encodeErrVal (s : List Char) : List Char := '-' :: (s ++ crlf)

/-- Modelled from the spec: Encode of an Integer, Integer(n) → :n\r\n
(spec 4.1, "not required by the command set but part of the type
system").  Missing from src/: no write helper emits integers. -/
def encodeIntVal (n : Int) : List Char := ':' :: (intToDigits n ++ crlf)

/-- writeRESPBulkString (main.go 300-305): fmt.Fprintf "$%d\r\n%s\r\n"
with len(msg). -/
def encodeBulk (s : List Char) : List Char :=
  '$' :: (natToDigits s.length ++ crlf ++ s ++ crlf)

mutual

/-- Encode of a protocol value.  The simple-string and bulk-string cases
follow the server's write helpers; the error, integer and array cases are
modelled from the spec (4.1 Encode and the section-6 wire table:
*<count>\r\n followed by the count encoded elements, *-1\r\n null). -/
def encodeRESP : RESPValue → List Char
  | .simple s => encodeSimple s
  | .err s => encodeErrVal s
  | .int n => encodeIntVal n
  | .bulk s => encodeBulk s
  | .arr xs => '*' :: (natToDigits xs.length ++ crlf ++ encodeListRESP xs)
  | .nilArr => '*' :: ('-' :: '1' :: crlf)

def encodeListRESP : List RESPValue → List Char
  | [] => []
  | v :: vs => encodeRESP v ++ encodeListRESP vs

end

/-! ## The restricted value set of the round-trip property

Simple strings and errors without CR or LF, integers in the signed 64-bit
range, bulk strings of arbitrary bytes (of string length representable in
an int64, as every Go string is), and non-null arrays of such. -/

mutual

def respWF : RESPValue → Bool
  | .simple s => decide ('\r' ∉ s) && decide ('\n' ∉ s)
  | .err s => decide ('\r' ∉ s) && decide ('\n' ∉ s)
  | .int n => decide (-(2 ^ 63 : Int) ≤ n) && decide (n ≤ (maxInt64 : Int))
  | .bulk s => decide (s.length ≤ maxInt64)
  | .arr xs => decide (xs.length ≤ maxInt64) && respWFList xs
  | .nilArr => false

def respWFList : List RESPValue → Bool
  | [] => true
  | v :: vs => respWF v && respWFList vs

end

mutual

/-- Fuel sufficient for parseF on the encoding of a value: one plus the
nesting depth, counting one level per array element position. -/
def needR : RESPValue → Nat
  | .simple _ => 1
  | .err _ => 1
  | .int _ => 1
  | .bulk _ => 1
  | .arr xs => needL xs + 1
  | .nilArr => 1

def needL : List RESPValue → Nat
  | [] => 1
  | v :: vs => max (needR v) (needL vs) + 1

end

/-! ### Round-trip lemmas -/

theorem splitAtNL_none (s : List Char) (h : '\n' ∉ s) : splitAtNL s = none := by
  induction s with
  | nil => rfl
  | cons c cs ih =>
    have hc : ¬c = '\n' := fun heq => h (heq ▸ List.mem_cons_self c cs)
    have hcs : '\n' ∉ cs := fun hm => h (List.mem_cons_of_mem c hm)
    simp [splitAtNL, hc, ih hcs]

theorem splitAtNL_encode (a rest : List Char) (h : '\n' ∉ a) :
    splitAtNL (a ++ '\r' :: '\n' :: rest) = some (a ++ ['\r', '\n'], rest) := by
  induction a with
  | nil => simp [splitAtNL]
  | cons c cs ih =>
    have hc : ¬c = '\n' := fun heq => h (heq ▸ List.mem_cons_self c cs)
    have hcs : '\n' ∉ cs := fun hm => h (List.mem_cons_of_mem c hm)
    simp [splitAtNL, hc, ih hcs]

theorem stripCRLF_append (a : List Char) : stripCRLF (a ++ ['\r', '\n']) = some a := by
  simp [stripCRLF, List.reverse_append]

theorem readRESPLine_encode (a rest : List Char) (h : '\n' ∉ a) :
    readRESPLine (a ++ '\r' :: '\n' :: rest) = .ok (a, rest) := by
  simp [readRESPLine, splitAtNL_encode a rest h, stripCRLF_append]

theorem parseF_simple_encode (f : Nat) (s rest : List Char) (hn : '\n' ∉ s) :
    parseF (f + 1) (encodeSimple s ++ rest) = .ok (.simple s, rest) := by
  have hline := readRESPLine_encode s rest hn
  show parseF (f + 1) ('+' :: ((s ++ crlf) ++ rest)) = .ok (.simple s, rest)
  simp only [crlf, List.append_assoc, List.cons_append, List.nil_append]
  simp [parseF, hline]

theorem parseF_errVal_encode (f : Nat) (s rest : List Char) (hn : '\n' ∉ s) :
    parseF (f + 1) (encodeErrVal s ++ rest) = .ok (.err s, rest) := by
  have hline := readRESPLine_encode s rest hn
  show parseF (f + 1) ('-' :: ((s ++ crlf) ++ rest)) = .ok (.err s, rest)
  simp only [crlf, List.append_assoc, List.cons_append, List.nil_append]
  simp [parseF, hline]

theorem parseF_intVal_encode (f : Nat) (n : Int) (rest : List Char)
    (hlo : -(2 ^ 63 : Int) ≤ n) (hhi : n ≤ (maxInt64 : Int)) :
    parseF (f + 1) (encodeIntVal n ++ rest) = .ok (.int n, rest) := by
  have hline := readRESPLine_encode (intToDigits n) rest (intToDigits_no_nl n)
  have hparse := goParseInt_intToDigits n hlo hhi
  show parseF (f + 1) (':' :: ((intToDigits n ++ crlf) ++ rest)) = .ok (.int n, rest)
  simp only [crlf, List.append_assoc, List.cons_append, List.nil_append]
  simp [parseF, hline, hparse]

theorem parseF_bulk_encode (f : Nat) (s rest : List Char) (h : s.length ≤ maxInt64) :
    parseF (f + 1) (encodeBulk s ++ rest) = .ok (.bulk s, rest) := by
  have hline := readRESPLine_encode (natToDigits s.length)
    (s ++ '\r' :: '\n' :: rest) (natToDigits_no_nl s.length)
  have hparse := goParseInt_natToDigits s.length h
  have hne1 : ¬((s.length : Int) = -1) := by omega
  have hlt : ¬((s.length : Int) < -1) := by omega
  have htn : ((s.length : Int)).toNat = s.length := by omega
  have hlen : s.length + 2 ≤ (s ++ '\r' :: '\n' :: rest).length := by
    simp [List.length_append]
  have htake : (s ++ '\r' :: '\n' :: rest).take s.length = s :=
    List.take_left' rfl
  have hsplit : s ++ '\r' :: '\n' :: rest = (s ++ ['\r', '\n']) ++ rest := by
    simp
  have hdrop : (s ++ '\r' :: '\n' :: rest).drop (s.length + 2) = rest := by
    rw [hsplit]
    exact List.drop_left' (by simp)
  show parseF (f + 1)
      ('$' :: ((natToDigits s.length ++ crlf ++ s ++ crlf) ++ rest)) = .ok (.bulk s, rest)
  simp only [crlf, List.append_assoc, List.cons_append, List.nil_append]
  simp [parseF, hline, hparse, hne1, hlt, htn, hlen, htake, hdrop]

theorem parseF_arr_encode (f : Nat) (xs : List RESPValue) (rest : List Char)
    (h : xs.length ≤ maxInt64) :
    parseF (f + 1) (encodeRESP (.arr xs) ++ rest)
      = match parseElemsF f xs.length (encodeListRESP xs ++ rest) with
        | .error e => .error e
        | .ok (ys, r2) => .ok (.arr ys, r2) := by
  have hline := readRESPLine_encode (natToDigits xs.length)
    (encodeListRESP xs ++ rest) (natToDigits_no_nl xs.length)
  have hparse := goParseInt_natToDigits xs.length h
  have hne1 : ¬((xs.length : Int) = -1) := by omega
  have hlt : ¬((xs.length : Int) < -1) := by omega
  have htn : ((xs.length : Int)).toNat = xs.length := by omega
  show parseF (f + 1)
      ('*' :: ((natToDigits xs.length ++ crlf ++ encodeListRESP xs) ++ rest)) = _
  simp only [crlf, List.append_assoc, List.cons_append, List.nil_append]
  simp [parseF, hline, hparse, hne1, hlt, htn]

theorem respRoundTripAux (fuel : Nat) :
    (∀ v rest, respWF v = true → needR v ≤ fuel →
      parseF fuel (encodeRESP v ++ rest) = .ok (v, rest)) ∧
    (∀ xs rest, respWFList xs = true → needL xs ≤ fuel →
      parseElemsF fuel xs.length (encodeListRESP xs ++ rest) = .ok (xs, rest)) := by
  induction fuel with
  | zero =>
    constructor
    · intro v rest _ hn
      exfalso
      cases v <;> simp [needR, needL] at hn
    · intro xs rest _ hn
      exfalso
      cases xs <;> simp [needL, needR] at hn
  | succ f ih =>
    obtain ⟨ihV, ihL⟩ := ih
    constructor
    · intro v rest hwf hn
      cases v with
      | simple s =>
        simp only [respWF, Bool.and_eq_true, decide_eq_true_eq] at hwf
        exact parseF_simple_encode f s rest hwf.2
      | err s =>
        simp only [respWF, Bool.and_eq_true, decide_eq_true_eq] at hwf
        exact parseF_errVal_encode f s rest hwf.2
      | int n =>
        simp only [respWF, Bool.and_eq_true, decide_eq_true_eq] at hwf
        exact parseF_intVal_encode f n rest hwf.1 hwf.2
      | bulk s =>
        simp only [respWF, decide_eq_true_eq] at hwf
        exact parseF_bulk_encode f s rest hwf
      | arr xs =>
        simp only [respWF, Bool.and_eq_true, decide_eq_true_eq] at hwf
        have hneed : needL xs ≤ f := by
          simp only [needR] at hn
          omega
        have helems := ihL xs rest hwf.2 hneed
        rw [parseF_arr_encode f xs rest hwf.1, helems]
      | nilArr => simp [respWF] at hwf
    · intro xs rest hwf hn
      cases xs with
      | nil =>
        simp [encodeListRESP, parseElemsF]
      | cons v vs =>
        simp only [respWFList, Bool.and_eq_true] at hwf
        have hnv : needR v ≤ f := by
          simp only [needL] at hn
          omega
        have hnvs : needL vs ≤ f := by
          simp only [needL] at hn
          omega
        have hv := ihV v (encodeListRESP vs ++ rest) hwf.1 hnv
        have hvs := ihL vs rest hwf.2 hnvs
        show parseElemsF (f + 1) (vs.length + 1)
            ((encodeRESP v ++ encodeListRESP vs) ++ rest) = .ok (v :: vs, rest)
        rw [List.append_assoc]
        simp [parseElemsF, hv, hvs]

/-! ## The expiring key-value store (rdb.go lines 8-56)

The Go map[string]cacheItem is modelled as an association list without
duplicate keys; the clock reads (time.Now().UnixMilli()) are the explicit
now arguments. -/

/-- cacheItem (rdb.go 8-11): value plus expiration in milliseconds since
the epoch, -1 meaning no expiration. -/
structure CacheItem where
  value : List Char
  expiration : Int
deriving DecidableEq, Repr

/-- The shared cache map (rdb.go 13-16). -/
abbrev Cache := List (List Char × CacheItem)

def mapGet (c : Cache) (k : List Char) : Option CacheItem :=
  match c with
  | [] => none
  | (k', i) :: t => if k' = k then some i else mapGet t k

def mapSet (c : Cache) (k : List Char) (i : CacheItem) : Cache :=
  match c with
  | [] => [(k, i)]
  | (k', i') :: t => if k' = k then (k, i) :: t else (k', i') :: mapSet t k i

def mapDel (c : Cache) (k : List Char) : Cache :=
  match c with
  | [] => []
  | (k', i') :: t => if k' = k then mapDel t k else (k', i') :: mapDel t k

/-- Set (rdb.go 19-34): px ≥ 0 gives expiration now + px, computed once
at set time; a negative px gives the no-expiration sentinel -1; the entry
overwrites any existing entry for the key. -/
def Set (c : Cache) (now : Int) (key value : List Char) (px : Int) : Cache :=
  let expiration : Int := if 0 ≤ px then now + px else -1
  mapSet c key ⟨value, expiration⟩

/-- Get (rdb.go 39-56), read sequentially: the map read, then the check
item.expiration != -1 && now > item.expiration, deleting the entry and
returning ("", false) when it holds, else returning (value, true).
The possibly-updated cache is returned alongside the result. -/
def Get (c : Cache) (now : Int) (key : List Char) : Cache × (List Char × Bool) :=
  match mapGet c key with
  | none => (c, ([], false))
  | some item =>
    if item.expiration ≠ -1 ∧ item.expiration < now then
      (mapDel c key, ([], false))
    else
      (c, (item.value, true))

theorem mapGet_mapSet_self (c : Cache) (k : List Char) (i : CacheItem) :
    mapGet (mapSet c k i) k = some i := by
  induction c with
  | nil => simp [mapSet, mapGet]
  | cons p t ih =>
    obtain ⟨k', i'⟩ := p
    by_cases h : k' = k
    · simp [mapSet, mapGet, h]
    · simp [mapSet, mapGet, h, ih]

/-! ## The Get/Set interleaving model (claim C8)

Get holds the read lock only for the map read (rdb.go 40-42); the
expiration decision runs without any lock, and the eviction re-acquires
the write lock for the delete alone (rdb.go 49-51).  Set holds the write
lock for its whole body (rdb.go 20-33).  Each lock-protected region is one
atomic step; an execution is an interleaving of the two threads' steps. -/

/-- Local control state of one in-flight Get. -/
inductive GetLocal where
  | start
  | readDone (item : Option CacheItem)
  | finished (res : List Char × Bool)
deriving DecidableEq, Repr

/-- One atomic step of Get(key) at instant now: first the RLock-protected
map read; then the decision on the privately held item together with, on
the expired path, the Lock-protected delete — which is applied to
whatever the shared cache holds at that moment, not to the cache that was
read. -/
def getStep (now : Int) (key : List Char) : GetLocal → Cache → GetLocal × Cache
  | .start, c => (.readDone (mapGet c key), c)
  | .readDone none, c => (.finished ([], false), c)
  | .readDone (some item), c =>
    if item.expiration ≠ -1 ∧ item.expiration < now then
      (.finished ([], false), mapDel c key)
    else
      (.finished (item.value, true), c)
  | .finished r, c => (.finished r, c)

/-- Shared cache plus the two threads: one Get in progress and one Set
that has not yet run. -/
structure RaceState where
  cache : Cache
  getLocal : GetLocal
  setPending : Bool
deriving DecidableEq, Repr

/-- true schedules the next atomic step of the Get thread; false
schedules the Set thread's single atomic Lock-protected body. -/
def raceStep (now : Int) (key v : List Char) (px : Int) (s : RaceState) : Bool → RaceState
  | true =>
    let (l, c) := getStep now key s.getLocal s.cache
    { s with getLocal := l, cache := c }
  | false =>
    if s.setPending then
      { s with cache := Set s.cache now key v px, setPending := false }
    else s

/-- Run an interleaving (a schedule of thread choices). -/
def runRace (now : Int) (key v : List Char) (px : Int) :
    List Bool → RaceState → RaceState
  | [], s => s
  | b :: bs, s => runRace now key v px bs (raceStep now key v px s b)

/-! ## The command dispatcher (src/cmd/server/main.go)

Replies are modelled by which write helper runs; the distinct
writeRESPError call sites are one constructor each, so error identities
are preserved without spelling every format string. -/

/-- The writeRESPError call sites of main.go, in source order. -/
inductive ErrMsg where
  | notArray                              -- main.go 64
  | emptyRequest                          -- 75
  | cmdNotBulk                            -- 81
  | echoNeedsMessage                      -- 112
  | echoNotBulk                           -- 119
  | setNeedsKeyValue                      -- 128
  | setKeyNotBulk                         -- 134
  | setPxNotBulk                          -- 148
  | setPxKeyword                          -- 152
  | setExpNotBulk                         -- 158
  | setExpInvalid                         -- 164
  | setExpNegative                        -- 169
  | getNeedsKey                           -- 182
  | getTooManyArgs                        -- 186
  | getKeyNotBulk                         -- 192
  | configNeedsSubcommand                 -- 207
  | configSubNotBulk                      -- 213
  | configUnknownSub (sub : List Char)    -- 225
  | configGetArity                        -- 231
  | configGetParamNotBulk                 -- 237
  | configSetArity                        -- 253
  | configSetParamNotBulk                 -- 259
  | configSetValueNotBulk                 -- 265
  | configSetUnknownParam (p : List Char) -- 275
  | unknownCommand (cmd : List Char)      -- 283
deriving DecidableEq, Repr

/-- One reply written on the connection: writeRESPError emits
"-ERR <msg>\r\n" (an Error frame), writeRESPSimpleString "+s\r\n",
writeRESPBulkString "$len\r\ns\r\n", writeRESPNullBulkString "$-1\r\n". -/
inductive Reply where
  | error (m : ErrMsg)
  | simple (s : List Char)
  | bulk (s : List Char)
  | nullBulk
deriving DecidableEq, Repr

/-- Whether a reply is an Error-type frame (wire prefix '-'). -/
def Reply.isError : Reply → Bool
  | .error _ => true
  | _ => false

def cPING : List Char := ['P', 'I', 'N', 'G']
def cPONG : List Char := ['P', 'O', 'N', 'G']
def cECHO : List Char := ['E', 'C', 'H', 'O']
def cSET : List Char := ['S', 'E', 'T']
def cGET : List Char := ['G', 'E', 'T']
def cPX : List Char := ['P', 'X']
def cCONFIG : List Char := ['C', 'O', 'N', 'F', 'I', 'G']
def cDIR : List Char := ['d', 'i', 'r']
def cDBFILENAME : List Char :=
  ['d', 'b', 'f', 'i', 'l', 'e', 'n', 'a', 'm', 'e']
def cOK : List Char := ['O', 'K']

/-- The server's mutable state: the cache plus the two configuration
strings of src/internal/redis/config.go. -/
structure ServerState where
  cache : Cache
  dir : List Char
  dbFileName : List Char
deriving DecidableEq, Repr

/-- handleSetCommand (main.go 126-178).  Checks run in source order:
len(req) < 3 draws the arity error; a non-bulk key draws an error; a
non-bulk VALUE draws writeRESPNullBulkString (main.go 140); the
PX/expiration block runs only when len(req) == 5 (otherwise the
expiration stays -1 and every element after the value is ignored);
strings.ToUpper is Char.toUpper mapped over the bytes, equivalent on the
comparison against "PX" since only 'p' and 'x' case-map onto 'P' and 'X';
the TTL is strconv.ParseInt(_, 10, 64) and must be non-negative. -/
def handleSetCommand (c : Cache) (now : Int) (req : List RESPValue) : Cache × Reply :=
  match req with
  | _ :: e1 :: e2 :: rest =>
    match e1 with
    | .bulk key =>
      match e2 with
      | .bulk val =>
        match rest with
        | [e3, e4] =>
          match e3 with
          | .bulk pxStr =>
            if pxStr.map Char.toUpper ≠ cPX then (c, .error .setPxKeyword)
            else
              match e4 with
              | .bulk expStr =>
                match goParseInt expStr with
                | none => (c, .error .setExpInvalid)
                | some exp =>
                  if exp < 0 then (c, .error .setExpNegative)
                  else (Set c now key val exp, .simple cOK)
              | _ => (c, .error .setExpNotBulk)
          | _ => (c, .error .setPxNotBulk)
        | _ => (Set c now key val (-1), .simple cOK)
      | _ => (c, .nullBulk)
    | _ => (c, .error .setKeyNotBulk)
  | _ => (c, .error .setNeedsKeyValue)

/-- handleEchoCommand (main.go 110-124). -/
def handleEchoCommand (req : List RESPValue) : Reply :=
  match req with
  | _ :: e1 :: _ =>
    match e1 with
    | .bulk msg => .bulk msg
    | _ => .error .echoNotBulk
  | _ => .error .echoNeedsMessage

/-- handleGetCommand (main.go 180-203): exactly one argument, which must
be a bulk string; found draws a bulk reply, not-found (or expired) the
null bulk string; the Get may evict. -/
def handleGetCommand (c : Cache) (now : Int) (req : List RESPValue) : Cache × Reply :=
  match req with
  | [_, e1] =>
    match e1 with
    | .bulk key =>
      let (c', r) := Get c now key
      if r.2 then (c', .bulk r.1) else (c', .nullBulk)
    | _ => (c, .error .getKeyNotBulk)
  | _ :: _ :: _ :: _ => (c, .error .getTooManyArgs)
  | _ => (c, .error .getNeedsKey)

/-- handleConfigGetCommand (main.go 229-249). -/
def handleConfigGetCommand (st : ServerState) (req : List RESPValue) : Reply :=
  match req with
  | [_, _, e2] =>
    match e2 with
    | .bulk param =>
      if param = cDIR then .bulk st.dir
      else if param = cDBFILENAME then .bulk st.dbFileName
      else .nullBulk
    | _ => .error .configGetParamNotBulk
  | _ => .error .configGetArity

/-- handleConfigSetCommand (main.go 251-280). -/
def handleConfigSetCommand (st : ServerState) (req : List RESPValue) :
    ServerState × Reply :=
  match req with
  | [_, _, e2, e3] =>
    match e2 with
    | .bulk param =>
      match e3 with
      | .bulk value =>
        if param = cDIR then ({ st with dir := value }, .simple cOK)
        else if param = cDBFILENAME then ({ st with dbFileName := value }, .simple cOK)
        else (st, .error (.configSetUnknownParam param))
      | _ => (st, .error .configSetValueNotBulk)
    | _ => (st, .error .configSetParamNotBulk)
  | _ => (st, .error .configSetArity)

/-- handleConfigCommand (main.go 205-227); subcommands compared
case-sensitively against "GET" and "SET". -/
def handleConfigCommand (st : ServerState) (req : List RESPValue) :
    ServerState × Reply :=
  match req with
  | _ :: e1 :: _ =>
    match e1 with
    | .bulk subCmd =>
      if subCmd = cGET then (st, handleConfigGetCommand st req)
      else if subCmd = cSET then handleConfigSetCommand st req
      else (st, .error (.configUnknownSub subCmd))
    | _ => (st, .error .configSubNotBulk)
  | _ => (st, .error .configNeedsSubcommand)

/-- handleRESP (main.go 73-104): empty request and non-bulk command name
draw error replies; command names are matched case-sensitively. -/
def handleRESP (st : ServerState) (now : Int) (req : List RESPValue) :
    ServerState × Reply :=
  match req with
  | [] => (st, .error .emptyRequest)
  | e0 :: _ =>
    match e0 with
    | .bulk cmd =>
      if cmd = cPING then (st, .simple cPONG)
      else if cmd = cECHO then (st, handleEchoCommand req)
      else if cmd = cSET then
        let (c', r) := handleSetCommand st.cache now req
        ({ st with cache := c' }, r)
      else if cmd = cGET then
        let (c', r) := handleGetCommand st.cache now req
        ({ st with cache := c' }, r)
      else if cmd = cCONFIG then handleConfigCommand st req
      else (st, .error (.unknownCommand cmd))
    | _ => (st, .error .cmdNotBulk)

/-- handleConnection (main.go 48-71): parse a frame from the buffered
stream; any parse error (clean EOF or not) ends the connection; a
non-array value draws an error reply and ends the connection; an array —
including Go's nil RESPArray, which the type assertion accepts and whose
length is 0 — is dispatched and the loop continues with the remaining
bytes.  The clock reads during dispatch are modelled by the single now
argument; fuel bounds the number of loop iterations. -/
def runConn : Nat → ServerState → Int → List Char → List Reply × ServerState
  | 0, st, _, _ => ([], st)
  | fuel + 1, st, now, s =>
    match parseF (s.length + 1) s with
    | .error _ => ([], st)
    | .ok (v, rest) =>
      match v with
      | .arr xs =>
        let (st', r) := handleRESP st now xs
        let (rs, st'') := runConn fuel st' now rest
        (r :: rs, st'')
      | .nilArr =>
        let (st', r) := handleRESP st now []
        let (rs, st'') := runConn fuel st' now rest
        (r :: rs, st'')
      | _ => ([.error .notArray], st)

/-! ## Claims -/

/-- C1 counterexample: Set("k","v", px=0) at instant 100 gives the entry
expiration 100; a Get at the very same instant 100 — an instant at (not
before) set-time + ttl — still returns ("v", found=true), because Get
evicts only when now is STRICTLY greater than the expiration
(rdb.go 48: time.Now().UnixMilli() > item.expiration).  The claim says any
Get at or after set-time + ttl returns not-found. -/
theorem c1_counterexample :
    (Get (Set [] 100 ['k'] ['v'] 0) 100 ['k']).2 = (['v'], true) := rfl

/-- C1 (amended): for an entry set at instant t ≥ 0 with ttl px ≥ 0, a Get
at instant t2 returns not-found (evicting the entry) exactly when t2 is
strictly after t + px, and returns the stored value with found=true
whenever t2 ≤ t + px — including a Get at the very instant of a ttl-0
Set.  An entry whose expiration instant equals the current instant is
still served; only a strictly past expiration is treated as absent. -/
theorem c1_ttl_boundary (c : Cache) (t t2 : Int) (key value : List Char)
    (px : Int) (ht : 0 ≤ t) (hpx : 0 ≤ px) :
    (t + px < t2 → Get (Set c t key value px) t2 key
        = (mapDel (Set c t key value px) key, ([], false))) ∧
    (t2 ≤ t + px → Get (Set c t key value px) t2 key
        = (Set c t key value px, (value, true))) := by
  have hexp : Set c t key value px = mapSet c key ⟨value, t + px⟩ := by
    simp [Set, hpx]
  have hget := mapGet_mapSet_self c key ⟨value, t + px⟩
  constructor
  · intro hlt
    rw [hexp]
    simp only [Get, hget]
    rw [if_pos ⟨by omega, hlt⟩]
  · intro hle
    rw [hexp]
    simp only [Get, hget]
    rw [if_neg (fun hc => absurd hc.2 (not_lt.mpr hle))]

/-- C1 witness: at t = 100, px = 5, a Get at 106 misses and a Get at 105
hits. -/
theorem c1_ttl_boundary_witness :
    Get (Set [] 100 ['k'] ['v'] 5) 106 ['k']
      = (mapDel (Set [] 100 ['k'] ['v'] 5) ['k'], ([], false)) ∧
    Get (Set [] 100 ['k'] ['v'] 5) 105 ['k']
      = (Set [] 100 ['k'] ['v'] 5, (['v'], true)) :=
  ⟨(c1_ttl_boundary [] 100 106 ['k'] ['v'] 5 (by decide) (by decide)).1 (by decide),
   (c1_ttl_boundary [] 100 105 ['k'] ['v'] 5 (by decide) (by decide)).2 (by decide)⟩

/-- C2: round trip of the codec on the restricted value set — for every
protocol value made of simple strings and errors without CR/LF, integers
in the signed 64-bit range, bulk strings of arbitrary bytes and non-null
arrays of such, decoding the bytes produced by encoding the value yields
exactly that value (and consumes exactly its frame), for any fuel at
least the nesting depth of the value. -/
theorem c2_roundtrip (v : RESPValue) (fuel : Nat) (rest : List Char)
    (hwf : respWF v = true) (hfuel : needR v ≤ fuel) :
    parseF fuel (encodeRESP v ++ rest) = .ok (v, rest) :=
  (respRoundTripAux fuel).1 v rest hwf hfuel

/-- C2 witness: a concrete nested array round-trips. -/
theorem c2_roundtrip_witness :
    respWF (.arr [.simple cOK, .int (-42), .bulk ['h', 'i']]) = true ∧
    needR (.arr [.simple cOK, .int (-42), .bulk ['h', 'i']]) ≤ 9 ∧
    parseF 9 (encodeRESP (.arr [.simple cOK, .int (-42), .bulk ['h', 'i']]) ++ [])
      = .ok (.arr [.simple cOK, .int (-42), .bulk ['h', 'i']], []) :=
  ⟨by decide, by decide, c2_roundtrip _ 9 [] (by decide) (by decide)⟩

/-- C3 counterexample: decoding $-1\r\n and decoding $0\r\n\r\n produce
the SAME value — parseBulkString (rdb.go 314-315) returns the plain empty
string RESPBulkString("") for the -1 sentinel, identical to the decoded
empty bulk string, so no consumer of the decoder's output can tell them
apart.  The claim says the two results are distinct. -/
theorem c3_counterexample :
    parseTop ['$', '-', '1', '\r', '\n']
      = parseTop ['$', '0', '\r', '\n', '\r', '\n'] := rfl

/-- C3 (amended): decoding $-1\r\n yields the empty bulk string
RESPBulkString("") — the same value as decoding $0\r\n\r\n; the decoder
has no distinct null sentinel for bulk strings. -/
theorem c3_null_bulk_conflated :
    parseTop ['$', '-', '1', '\r', '\n'] = .ok (.bulk [], []) ∧
    parseTop ['$', '0', '\r', '\n', '\r', '\n'] = .ok (.bulk [], []) :=
  ⟨rfl, rfl⟩

/-- C4 counterexample: on the stream consisting of the single byte '+',
Parse has read one byte of the frame and then hits the stream end inside
the header line, yet reports io.EOF — the same condition as a clean
disconnect on the empty stream — because readRESPLine (rdb.go 353-355)
returns bufio's error verbatim, discarding the partial line.  The claim
says EOF is reported only when the stream ends before any byte of the
frame was read. -/
theorem c4_counterexample :
    parseTop ['+'] = .error .eof ∧ (['+'] : List Char) ≠ [] :=
  ⟨rfl, by decide⟩

/-- C4 (amended): Parse reports the io.EOF condition on a clean
disconnect at a frame boundary, but also whenever the stream ends inside
a header line before its LF, and when it ends with zero bytes of a bulk
payload present; only a stream ending with at least one byte but fewer
than length+2 bytes of a bulk payload is reported as the distinct
mid-frame error io.ErrUnexpectedEOF.  Clean disconnects are therefore not
reliably distinguishable from mid-frame stream ends. -/
theorem c4_eof_classification :
    (parseTop [] = .error .eof) ∧
    (∀ s : List Char, '\n' ∉ s → parseTop ('+' :: s) = .error .eof) ∧
    (∀ L : Nat, L ≤ maxInt64 →
      parseTop ('$' :: (natToDigits L ++ ['\r', '\n'])) = .error .eof) ∧
    (∀ (L : Nat) (p : List Char), L ≤ maxInt64 → 0 < p.length → p.length < L + 2 →
      parseTop ('$' :: (natToDigits L ++ '\r' :: '\n' :: p))
        = .error .unexpectedEof) := by
  refine ⟨rfl, ?_, ?_, ?_⟩
  · intro s h
    simp [parseTop, parseF, readRESPLine, splitAtNL_none s h]
  · intro L hL
    have hline := readRESPLine_encode (natToDigits L) [] (natToDigits_no_nl L)
    have hparse := goParseInt_natToDigits L hL
    have h1 : ¬((L : Int) = -1) := by omega
    have h2 : ¬((L : Int) < -1) := by omega
    have h3 : ((L : Int)).toNat = L := by omega
    simp [parseTop, parseF, hline, hparse, h1, h2, h3]
  · intro L p hL hpos hlt
    have hline := readRESPLine_encode (natToDigits L) p (natToDigits_no_nl L)
    have hparse := goParseInt_natToDigits L hL
    have h1 : ¬((L : Int) = -1) := by omega
    have h2 : ¬((L : Int) < -1) := by omega
    have h3 : ((L : Int)).toNat = L := by omega
    have h4 : ¬(L + 2 ≤ p.length) := by omega
    have h5 : ¬(p.length = 0) := by omega
    simp [parseTop, parseF, hline, hparse, h1, h2, h3, h4, h5]

/-- C4 witness: concrete mid-line EOF, zero-payload EOF, and partial
payload unexpected-EOF. -/
theorem c4_eof_classification_witness :
    parseTop ('+' :: ['a', 'b']) = .error .eof ∧
    parseTop ('$' :: (natToDigits 5 ++ ['\r', '\n'])) = .error .eof ∧
    parseTop ('$' :: (natToDigits 5 ++ '\r' :: '\n' :: ['a', 'b']))
      = .error .unexpectedEof :=
  ⟨c4_eof_classification.2.1 ['a', 'b'] (by decide),
   c4_eof_classification.2.2.1 5 (by decide),
   c4_eof_classification.2.2.2 5 ['a', 'b'] (by decide) (by decide) (by decide)⟩

/-- C5 counterexample: the request SET "k" 42, whose value argument is an
integer rather than a bulk string, draws writeRESPNullBulkString
(main.go 140) — a null bulk string reply, not an Error-type reply.  The
claim says every such malformed request produces an Error reply. -/
theorem c5_counterexample :
    (handleRESP ⟨[], [], []⟩ 0 [.bulk cSET, .bulk ['k'], .int 42]).2 = .nullBulk ∧
    Reply.isError (handleRESP ⟨[], [], []⟩ 0 [.bulk cSET, .bulk ['k'], .int 42]).2
      = false :=
  ⟨rfl, rfl⟩

/-- C5 (amended): an empty request array, a non-bulk-string command name,
a non-bulk ECHO message, a non-bulk GET key and a non-bulk SET key all
draw Error-type replies and leave the state unchanged; the one exception
is SET's value argument, where a non-bulk value draws a null bulk string
reply instead of an error.  In every case the connection loop continues
reading further requests after the reply (the connection stays open). -/
theorem c5_malformed_requests (st : ServerState) (now : Int) :
    (handleRESP st now [] = (st, .error .emptyRequest)) ∧
    (∀ (v : RESPValue) (rest : List RESPValue), (∀ s, v ≠ .bulk s) →
      handleRESP st now (v :: rest) = (st, .error .cmdNotBulk)) ∧
    (∀ (w : RESPValue) (rest : List RESPValue), (∀ s, w ≠ .bulk s) →
      handleRESP st now (.bulk cECHO :: w :: rest) = (st, .error .echoNotBulk)) ∧
    (∀ w : RESPValue, (∀ s, w ≠ .bulk s) →
      handleRESP st now [.bulk cGET, w] = (st, .error .getKeyNotBulk)) ∧
    (∀ (w e2 : RESPValue) (rest : List RESPValue), (∀ s, w ≠ .bulk s) →
      handleRESP st now (.bulk cSET :: w :: e2 :: rest)
        = (st, .error .setKeyNotBulk)) ∧
    (∀ (key : List Char) (w : RESPValue) (rest : List RESPValue),
      (∀ s, w ≠ .bulk s) →
      handleRESP st now (.bulk cSET :: .bulk key :: w :: rest) = (st, .nullBulk)) ∧
    (∀ (fuel : Nat) (s rest : List Char) (xs : List RESPValue),
      parseF (s.length + 1) s = .ok (.arr xs, rest) →
      runConn (fuel + 1) st now s
        = ((handleRESP st now xs).2
            :: (runConn fuel (handleRESP st now xs).1 now rest).1,
           (runConn fuel (handleRESP st now xs).1 now rest).2)) := by
  refine ⟨rfl, ?_, ?_, ?_, ?_, ?_, ?_⟩
  · intro v rest h
    cases v with
    | bulk s => exact absurd rfl (h s)
    | simple s => rfl
    | err s => rfl
    | int n => rfl
    | arr xs => rfl
    | nilArr => rfl
  · intro w rest h
    cases w with
    | bulk s => exact absurd rfl (h s)
    | simple s => rfl
    | err s => rfl
    | int n => rfl
    | arr xs => rfl
    | nilArr => rfl
  · intro w h
    cases w with
    | bulk s => exact absurd rfl (h s)
    | simple s => rfl
    | err s => rfl
    | int n => rfl
    | arr xs => rfl
    | nilArr => rfl
  · intro w e2 rest h
    cases w with
    | bulk s => exact absurd rfl (h s)
    | simple s => rfl
    | err s => rfl
    | int n => rfl
    | arr xs => rfl
    | nilArr => rfl
  · intro key w rest h
    cases w with
    | bulk s => exact absurd rfl (h s)
    | simple s => rfl
    | err s => rfl
    | int n => rfl
    | arr xs => rfl
    | nilArr => rfl
  · intro fuel s rest xs h
    rcases hh : handleRESP st now xs with ⟨st1, r⟩
    rcases hrun : runConn fuel st1 now rest with ⟨rs, st2⟩
    simp [runConn, h, hh, hrun]

/-- C5 witness: each malformed shape at a concrete request, and the loop
continuing past an empty-array frame. -/
theorem c5_malformed_requests_witness :
    handleRESP ⟨[], [], []⟩ 0 [] = (⟨[], [], []⟩, .error .emptyRequest) ∧
    handleRESP ⟨[], [], []⟩ 0 [.int 1] = (⟨[], [], []⟩, .error .cmdNotBulk) ∧
    handleRESP ⟨[], [], []⟩ 0 [.bulk cECHO, .int 2]
      = (⟨[], [], []⟩, .error .echoNotBulk) ∧
    handleRESP ⟨[], [], []⟩ 0 [.bulk cGET, .int 3]
      = (⟨[], [], []⟩, .error .getKeyNotBulk) ∧
    handleRESP ⟨[], [], []⟩ 0 [.bulk cSET, .int 4, .int 5]
      = (⟨[], [], []⟩, .error .setKeyNotBulk) ∧
    handleRESP ⟨[], [], []⟩ 0 [.bulk cSET, .bulk ['k'], .int 6]
      = (⟨[], [], []⟩, .nullBulk) ∧
    runConn 1 ⟨[], [], []⟩ 0 ['*', '0', '\r', '\n']
      = ((handleRESP ⟨[], [], []⟩ 0 []).2
          :: (runConn 0 (handleRESP ⟨[], [], []⟩ 0 []).1 0 []).1,
         (runConn 0 (handleRESP ⟨[], [], []⟩ 0 []).1 0 []).2) :=
  ⟨(c5_malformed_requests ⟨[], [], []⟩ 0).1,
   (c5_malformed_requests ⟨[], [], []⟩ 0).2.1 (.int 1) []
     (fun _ h => RESPValue.noConfusion h),
   (c5_malformed_requests ⟨[], [], []⟩ 0).2.2.1 (.int 2) []
     (fun _ h => RESPValue.noConfusion h),
   (c5_malformed_requests ⟨[], [], []⟩ 0).2.2.2.1 (.int 3)
     (fun _ h => RESPValue.noConfusion h),
   (c5_malformed_requests ⟨[], [], []⟩ 0).2.2.2.2.1 (.int 4) (.int 5) []
     (fun _ h => RESPValue.noConfusion h),
   (c5_malformed_requests ⟨[], [], []⟩ 0).2.2.2.2.2.1 ['k'] (.int 6) []
     (fun _ h => RESPValue.noConfusion h),
   (c5_malformed_requests ⟨[], [], []⟩ 0).2.2.2.2.2.2 0 ['*', '0', '\r', '\n'] [] []
     rfl⟩

/-- C6: the SET dispatcher — fewer than 2 arguments after the command
name draws the arity error with the store untouched; in the 5-element
(key value PX ttl) form, a third argument that is not a bulk string
upper-casing to "PX" or a fourth argument that is not a bulk string
parsing to a non-negative int64 draws an error reply with the store
untouched; a well-formed 5-element form stores the key with that TTL and
replies SimpleString "OK". -/
theorem c6_set_command (c : Cache) (now : Int) :
    (∀ req : List RESPValue, req.length < 3 →
      handleSetCommand c now req = (c, .error .setNeedsKeyValue)) ∧
    (∀ (e0 : RESPValue) (key val : List Char) (e3 e4 : RESPValue),
      ((∀ s, e3 = .bulk s → s.map Char.toUpper ≠ cPX) ∨
       (∀ (s : List Char) (m : Int), e4 = .bulk s → goParseInt s = some m → m < 0)) →
      (handleSetCommand c now [e0, .bulk key, .bulk val, e3, e4]).1 = c ∧
      ∃ m, (handleSetCommand c now [e0, .bulk key, .bulk val, e3, e4]).2
        = .error m) ∧
    (∀ (e0 : RESPValue) (key val pxs es : List Char) (m : Int),
      pxs.map Char.toUpper = cPX → goParseInt es = some m → 0 ≤ m →
      handleSetCommand c now [e0, .bulk key, .bulk val, .bulk pxs, .bulk es]
        = (Set c now key val m, .simple cOK)) := by
  refine ⟨?_, ?_, ?_⟩
  · intro req h
    match req with
    | [] => rfl
    | [_] => rfl
    | [_, _] => rfl
    | _ :: _ :: _ :: _ => simp [List.length_cons] at h; omega
  · intro e0 key val e3 e4 hbad
    cases e3 with
    | bulk pxs =>
      by_cases hpx : pxs.map Char.toUpper = cPX
      · rcases hbad with h3 | h4
        · exact absurd hpx (h3 pxs rfl)
        · cases e4 with
          | bulk es =>
            rcases hp : goParseInt es with _ | m
            · refine ⟨?_, .setExpInvalid, ?_⟩ <;>
                simp [handleSetCommand, hpx, hp]
            · have hm : m < 0 := h4 es m rfl hp
              refine ⟨?_, .setExpNegative, ?_⟩ <;>
                simp [handleSetCommand, hpx, hp, hm]
          | simple s =>
            refine ⟨?_, .setExpNotBulk, ?_⟩ <;> simp [handleSetCommand, hpx]
          | err s =>
            refine ⟨?_, .setExpNotBulk, ?_⟩ <;> simp [handleSetCommand, hpx]
          | int n =>
            refine ⟨?_, .setExpNotBulk, ?_⟩ <;> simp [handleSetCommand, hpx]
          | arr xs =>
            refine ⟨?_, .setExpNotBulk, ?_⟩ <;> simp [handleSetCommand, hpx]
          | nilArr =>
            refine ⟨?_, .setExpNotBulk, ?_⟩ <;> simp [handleSetCommand, hpx]
      · refine ⟨?_, .setPxKeyword, ?_⟩ <;> simp [handleSetCommand, hpx]
    | simple s => exact ⟨rfl, .setPxNotBulk, rfl⟩
    | err s => exact ⟨rfl, .setPxNotBulk, rfl⟩
    | int n => exact ⟨rfl, .setPxNotBulk, rfl⟩
    | arr xs => exact ⟨rfl, .setPxNotBulk, rfl⟩
    | nilArr => exact ⟨rfl, .setPxNotBulk, rfl⟩
  · intro e0 key val pxs es m hpx hp hm
    simp [handleSetCommand, hpx, hp, not_lt.mpr hm]

/-- C6 witness: the arity error on a bare SET, a syntax error on a
lower-case non-PX keyword, and a successful SET k v px 5. -/
theorem c6_set_command_witness :
    handleSetCommand [] 0 [.bulk cSET] = ([], .error .setNeedsKeyValue) ∧
    ((handleSetCommand [] 0
        [.bulk cSET, .bulk ['k'], .bulk ['v'], .bulk ['z'], .bulk ['5']]).1 = [] ∧
      ∃ m, (handleSetCommand [] 0
        [.bulk cSET, .bulk ['k'], .bulk ['v'], .bulk ['z'], .bulk ['5']]).2
          = .error m) ∧
    handleSetCommand [] 0
        [.bulk cSET, .bulk ['k'], .bulk ['v'], .bulk ['p', 'x'], .bulk ['5']]
      = (Set [] 0 ['k'] ['v'] 5, .simple cOK) :=
  ⟨(c6_set_command [] 0).1 [.bulk cSET] (by decide),
   (c6_set_command [] 0).2.1 (.bulk cSET) ['k'] ['v'] (.bulk ['z']) (.bulk ['5'])
     (Or.inl fun s hs => by
       cases hs
       decide),
   (c6_set_command [] 0).2.2 (.bulk cSET) ['k'] ['v'] ['p', 'x'] ['5'] 5
     (by decide) (by decide) (by decide)⟩

/-- C7: overwriting a key clears any stale TTL — after a second Set with
a negative px (the dispatcher's encoding for no TTL), a Get at ANY later
instant returns the new value with found=true, no matter what TTL the
first Set installed and whether it has already lapsed; the earlier
expiration never resurrects. -/
theorem c7_overwrite_clears_ttl (c : Cache) (t1 t2 t3 : Int)
    (key v1 v2 : List Char) (px1 px2 : Int) (hpx2 : px2 < 0) :
    Get (Set (Set c t1 key v1 px1) t2 key v2 px2) t3 key
      = (Set (Set c t1 key v1 px1) t2 key v2 px2, (v2, true)) := by
  have h2 : Set (Set c t1 key v1 px1) t2 key v2 px2
      = mapSet (Set c t1 key v1 px1) key ⟨v2, -1⟩ := by
    simp [Set, not_le.mpr hpx2]
  rw [h2]
  simp [Get, mapGet_mapSet_self]

/-- C7 witness: set k with ttl 100 at t=0, overwrite with no TTL at t=150,
read far in the future. -/
theorem c7_overwrite_clears_ttl_witness :
    Get (Set (Set [] 0 ['k'] ['v', '1'] 100) 150 ['k'] ['v', '2'] (-1))
        1000000 ['k']
      = (Set (Set [] 0 ['k'] ['v', '1'] 100) 150 ['k'] ['v', '2'] (-1),
         (['v', '2'], true)) :=
  c7_overwrite_clears_ttl [] 0 150 1000000 ['k'] ['v', '1'] ['v', '2'] 100 (-1)
    (by decide)

/-- C8: the lost-update race.  With entry k=("v1", expires 100) in the
cache, the schedule [Get reads k at now=200; Set(k,"v2", no TTL) runs its
whole locked body; Get takes the expired path and deletes k] is a legal
interleaving of the code's atomic lock regions, and it ends with k absent
from the cache: the fresh, never-expiring write of the concurrent Set is
lost, deleted by a Get acting on its stale read.  The contrasting
schedule that lets the Set run first keeps k=("v2", -1), showing the loss
comes from the interleaving, not the operations. -/
theorem c8_lost_update_race :
    runRace 200 ['k'] ['v', '2'] (-1) [true, false, true]
        ⟨Set [] 0 ['k'] ['v', '1'] 100, .start, true⟩
      = ⟨[], .finished ([], false), false⟩ ∧
    runRace 200 ['k'] ['v', '2'] (-1) [false, true, true]
        ⟨Set [] 0 ['k'] ['v', '1'] 100, .start, true⟩
      = ⟨[(['k'], ⟨['v', '2'], -1⟩)], .finished (['v', '2'], true), false⟩ :=
  ⟨rfl, rfl⟩

/-- C9: a bulk-string header with length -2 and an array header with
count -3 do not yield error returns — the Go code panics (rdb.go 323:
buf[:length] with a negative length; rdb.go 340: make with a negative
capacity), which is modelled by the distinguished panicked outcome.  A
panic in a connection goroutine is process-fatal. -/
theorem c9_negative_length_panics :
    parseTop ['$', '-', '2', '\r', '\n'] = .error .panicked ∧
    parseTop ['*', '-', '3', '\r', '\n'] = .error .panicked :=
  ⟨rfl, rfl⟩

/-- C10: a SET request with bulk key and value whose element count is not
exactly 5 ignores everything after the value: the key is stored with no
expiration (px -1, the never-expires sentinel) and the reply is
SimpleString "OK" — e.g. SET k v PX with the TTL missing silently stores
k without a TTL. -/
theorem c10_extra_args_ignored (c : Cache) (now : Int) (e0 : RESPValue)
    (key val : List Char) (extra : List RESPValue) (h : extra.length ≠ 2) :
    handleSetCommand c now (e0 :: .bulk key :: .bulk val :: extra)
      = (Set c now key val (-1), .simple cOK) ∧
    mapGet (Set c now key val (-1)) key = some ⟨val, -1⟩ := by
  constructor
  · cases extra with
    | nil => rfl
    | cons a t =>
      cases t with
      | nil => rfl
      | cons b t2 =>
        cases t2 with
        | nil => exact absurd rfl h
        | cons d t3 => rfl
  · have hs : Set c now key val (-1) = mapSet c key ⟨val, -1⟩ := by
      simp [Set]
    rw [hs]
    exact mapGet_mapSet_self c key ⟨val, -1⟩

/-- C10 witness: the literal SET k v PX request (4 elements). -/
theorem c10_extra_args_ignored_witness :
    handleSetCommand [] 0 [.bulk cSET, .bulk ['k'], .bulk ['v'], .bulk cPX]
      = (Set [] 0 ['k'] ['v'] (-1), .simple cOK) ∧
    mapGet (Set [] 0 ['k'] ['v'] (-1)) ['k'] = some ⟨['v'], -1⟩ :=
  c10_extra_args_ignored [] 0 (.bulk cSET) ['k'] ['v'] [.bulk cPX] (by decide)

end Redis

